import Mathlib

/-!
Verification of the resilient batch annotation pipeline of `backend/explainer.py`
(repository Decodr): the completion client with model rotation and backoff
(`call_llm`), the batch response parser (`parse_batch_response`), the batch
orchestrator (`process_folder`), the quiz generator (`generate_simple_quiz`)
and the credential check in `main`.

The network is modelled by an oracle `Nat → HttpResult` giving the outcome of
the k-th HTTP request of the run, and the random jitter draws by a function
`Nat → ℚ` indexed the same way.  Strings are Lean `String`s; Python's
`str.split('\n')`, `str.strip()` and the regexes of `parse_batch_response`
are translated character by character below.
-/

namespace Decodr

/-- `FREE_MODELS` from explainer.py: the ordered fallback chain of model ids. -/
def FREE_MODELS : List String :=
  ["qwen/qwen3-coder:free", "google/gemma-2-9b-it:free", "mistralai/mistral-7b-instruct:free"]

/-- Length of the model chain (`len(FREE_MODELS)` = 3). -/
def numModels : Nat := FREE_MODELS.length

/-- Python whitespace as stripped by `str.strip()` and matched by `\s`
(for the strings at hand: no Unicode spaces occur). -/
def isPySpace (c : Char) : Bool :=
  c = ' ' || c = '\t' || c = '\n' || c = '\r' || c = '\x0c' || c = '\x0b'

/-- `str.strip()` on a character list: drop leading and trailing whitespace. -/
def stripCs (cs : List Char) : List Char :=
  ((cs.dropWhile isPySpace).reverse.dropWhile isPySpace).reverse

/-- Python `s.split('\n')`: split at every newline, keeping empty pieces
(`"".split('\n') == [""]`). -/
def splitNl : List Char → List (List Char)
  | [] => [[]]
  | c :: rest =>
    if c = '\n' then [] :: splitNl rest
    else
      match splitNl rest with
      | [] => [[c]]
      | l :: ls => (c :: l) :: ls

/-- One line of `parse_batch_response`'s scan: after `line.strip()`, the regex
`^\d+[\.\)]` must match (one or more digits then `.` or `)`); on a match,
`re.sub(r'^\d+[\.\)]\s*', '', line.strip())` removes that prefix and the
following whitespace and the remainder is the explanation. -/
def numberedRem (cs : List Char) : Option (List Char) :=
  let t := stripCs cs
  let ds := t.takeWhile Char.isDigit
  let rest := t.dropWhile Char.isDigit
  if ds = [] then none
  else
    match rest with
    | '.' :: r => some (r.dropWhile isPySpace)
    | ')' :: r => some (r.dropWhile isPySpace)
    | _ => none

/-- The matched, stripped explanations collected by `parse_batch_response`'s
line scan over `response.split('\n')`, in line order. -/
def matchedItems (response : String) : List String :=
  (splitNl response.data).filterMap (fun cs => (numberedRem cs).map List.asString)

/-- The generic placeholder list `["Code file 1", ..., "Code file n"]`. -/
def genericExplanations (expected_count : Nat) : List String :=
  (List.range expected_count).map (fun i => "Code file " ++ toString (i + 1))

/-- `parse_batch_response(response, expected_count)` from explainer.py:
scan the lines for numbered items; if the number of matches differs from
`expected_count`, discard them all and return the generic placeholders. -/
def parse_batch_response (response : String) (expected_count : Nat) : List String :=
  let explanations := matchedItems response
  if explanations.length ≠ expected_count then genericExplanations expected_count
  else explanations

/-- Outcome of one `requests.post` call: an HTTP response with a status code
and a body (the body stands for the completion content
`resp.json()["choices"][0]["message"]["content"]`), or a request-level error
(timeout, connection failure) raised by `requests.post` itself. -/
inductive HttpResult where
  | response (status : Nat) (body : String)
  | netError (msg : String)
deriving DecidableEq, Repr

/-- `resp.status_code == 429`. -/
def is429 : HttpResult → Bool
  | .response s _ => s == 429
  | .netError _ => false

/-- The attempt ends in a `requests.exceptions.RequestException`: either
`requests.post` itself failed, or `resp.raise_for_status()` raised an
`HTTPError` (it raises exactly for status codes in 400..599). -/
def isFailure : HttpResult → Bool
  | .response s _ => decide (400 ≤ s ∧ s < 600)
  | .netError _ => true

/-- Body of a successful response (only used on the success branch). -/
def bodyOf : HttpResult → String
  | .response _ b => b
  | .netError _ => ""

/-- Decimal digit character. -/
def digitChar (d : Nat) : Char := Char.ofNat (48 + d)

/-- Decimal rendering of a natural number (fuelled). -/
def natToStrGo : Nat → Nat → List Char
  | 0, _ => []
  | fuel + 1, n =>
    if n < 10 then [digitChar n]
    else natToStrGo fuel (n / 10) ++ [digitChar (n % 10)]

/-- Decimal rendering of a natural number. -/
def natToStr (n : Nat) : String := (natToStrGo (n + 1) n).asString

/-- Modelled `str(e)` of the `HTTPError` raised by `resp.raise_for_status()`
for an error status: it embeds the status code, the reason and the URL on a
single line. -/
def statusMsg (status : Nat) : String :=
  natToStr status ++ " Error for url: https://openrouter.ai/api/v1/chat/completions"

/-- `str(e)` of the caught `RequestException`. -/
def excMsg : HttpResult → String
  | .response s _ => statusMsg s
  | .netError m => m

/-- `text.encode('ascii', errors='ignore').decode('ascii')`: drop every
non-ASCII character. -/
def asciiClean (s : String) : String :=
  (s.data.filter (fun c => c.toNat ≤ 127)).asString

/-- The string returned when the final attempt of the loop fails. -/
def errorPlaceholder (msg : String) : String :=
  "⚠️ Could not generate explanation due to API error: " ++ msg

/-- The string returned when the loop body never runs (budget exhausted by
the rate-limit recursion). -/
def unavailableMsg : String := "⚠️ Explanation unavailable due to API issues"

/-- Python's binary `min`, as used in `min(120, ...)`. -/
def qmin (a b : ℚ) : ℚ := if a ≤ b then a else b

/-- One completion attempt as recorded in an execution trace: which request
of the run it was (`step`), the `model_index` argument in force, the model
identifier actually used (`FREE_MODELS[model_index % len(FREE_MODELS)]`),
the loop variable `attempt`, the HTTP outcome, and the sleep computed before
continuing (`none` when the attempt returns without sleeping). -/
structure AttemptRec where
  step : Nat
  rawIndex : Nat
  model : String
  attempt : Nat
  result : HttpResult
  wait : Option ℚ
deriving DecidableEq, Repr

/-- The `for attempt in range(retries)` loop of `call_llm`, with `k`
iterations left (so the current loop variable is `attempt` and
`attempt == retries - 1` exactly when `k = 1` on entry).  `next step idx`
is the recursive `call_llm(prompt, model_index + 1, retries - 1)` call taken
on a 429 status.  Returns `call_llm`'s result string together with the trace
of attempts performed. -/
def attemptLoop (oracle : Nat → HttpResult) (jit : Nat → ℚ)
    (next : Nat → Nat → String × List AttemptRec) :
    Nat → Nat → Nat → Nat → String × List AttemptRec
  | 0, _, _, _ => (unavailableMsg, [])
  | k + 1, attempt, step, modelIndex =>
    let res := oracle step
    let rcd : Option ℚ → AttemptRec := fun w =>
      ⟨step, modelIndex, FREE_MODELS.getD (modelIndex % numModels) "", attempt, res, w⟩
    if is429 res then
      -- wait_time = min(120, (2 ** attempt) * 5 + random.uniform(0, 5))
      let w : ℚ := qmin 120 ((2 : ℚ) ^ attempt * 5 + jit step)
      let r := next (step + 1) (modelIndex + 1)
      (r.1, rcd (some w) :: r.2)
    else if isFailure res then
      if k = 0 then (errorPlaceholder (excMsg res), [rcd none])
      else
        -- wait_time = (2 ** attempt) + random.uniform(0, 3)
        let w : ℚ := (2 : ℚ) ^ attempt + jit step
        let r := attemptLoop oracle jit next k (attempt + 1) (step + 1) modelIndex
        (r.1, rcd (some w) :: r.2)
    else (asciiClean (bodyOf res), [rcd none])

/-- `call_llm(prompt, model_index, retries)`: recursion on `retries`
(the 429 path re-invokes `call_llm` with `retries - 1`); `step` numbers the
HTTP requests of the run.  With budget 0 the loop body never runs and the
final fallback string is returned. -/
def callLLMR (oracle : Nat → HttpResult) (jit : Nat → ℚ) (prompt : String) :
    Nat → Nat → Nat → String × List AttemptRec
  | 0, _, _ => (unavailableMsg, [])
  | retries + 1, step, modelIndex =>
    attemptLoop oracle jit (fun s m => callLLMR oracle jit prompt retries s m)
      (retries + 1) 0 step modelIndex

/-- `call_llm(prompt)` with the default arguments `model_index = 0`,
`retries = 3`, at the start of a run. -/
def call_llm (oracle : Nat → HttpResult) (jit : Nat → ℚ) (prompt : String) :
    String × List AttemptRec :=
  callLLMR oracle jit prompt 3 0 0

/-- Adjacent attempts of one logical request: the `model_index` argument
advances by one exactly after a rate-limited attempt, else stays. -/
def advancesOn429 (r1 r2 : AttemptRec) : Prop :=
  r2.rawIndex = r1.rawIndex + (if is429 r1.result then 1 else 0)

/-- Largest possible number of HTTP attempts of `call_llm` with budget `r`:
`r` loop iterations at the top level, then recursively with `r - 1`. -/
def maxAttempts : Nat → Nat
  | 0 => 0
  | r + 1 => (r + 1) + maxAttempts r

/-- The jitter function drawing no randomness, for concrete executions. -/
def zeroJit : Nat → ℚ := fun _ => 0

/-- A schedule on which `call_llm` with the default budget 3 performs 6
attempts: two transient errors then a 429 at the top level, one transient
error then a 429 at budget 2, a 429 at budget 1. -/
def c6Oracle : Nat → HttpResult := fun k =>
  if k = 0 ∨ k = 1 ∨ k = 3 then .netError "boom" else .response 429 ""

/-- A schedule whose first attempt is a plain 400 and whose second succeeds. -/
def c5Oracle : Nat → HttpResult := fun k =>
  if k = 0 then .response 400 "x" else .response 200 "ok"

/-- A schedule on which every attempt is rate limited. -/
def all429Oracle : Nat → HttpResult := fun _ => .response 429 ""

/-- An entry of `all_files` as collected by `process_folder`: relative path,
contents as returned by `read_code` (the empty string when reading failed or
the file is empty), and the extension with its leading dot.  The absolute
position in the list plays the role of the stored `counter - 1`. -/
structure CorpusEntry where
  relPath : String
  code : String
  ext : String
deriving DecidableEq, Repr

/-- `safe_path`: make paths safe for Markdown by replacing backslashes. -/
def safe_path (path : String) : String := path.replace "\\" "/"

/-- `batch_size = min(4, max(2, len(all_files) // 10))`. -/
def batchSize (n : Nat) : Nat := min 4 (max 2 (n / 10))

/-- Number of iterations of `for i in range(0, n, bs)` (for `bs > 0`). -/
def numBatches (n bs : Nat) : Nat := (n + bs - 1) / bs

/-- The loop indices `i` of `for i in range(0, n, bs)`. -/
def batchStarts (n bs : Nat) : List Nat :=
  (List.range (numBatches n bs)).map (fun k => k * bs)

/-- Python slicing `s[:m]`. -/
def strTake (s : String) (m : Nat) : String := (s.data.take m).asString

/-- The batch prompt built by `generate_batch_explanations` over
`batch_data` tuples `(rel_path, code, ext-without-dot)`. -/
def batchPrompt (batchData : List (String × String × String)) : String :=
  (batchData.enum.foldl
    (fun acc p =>
      acc ++ toString (p.1 + 1) ++ ". " ++ p.2.1 ++ " (" ++ p.2.2.2 ++ "):\n```" ++
        p.2.2.2 ++ "\n" ++ strTake p.2.2.1 500 ++ "\n```\n\n")
    "Explain each code snippet in exactly 10 words:\n\n")
  ++ "Provide explanations as a numbered list, each exactly 10 words:"

/-- State threaded through `process_folder`'s batching loop: the explanation
slots, the two document accumulators, the number of HTTP requests made so
far, and the accumulated attempt trace. -/
structure BatchState where
  explanations : List String
  codeMd : String
  explanationMd : String
  step : Nat
  trace : List AttemptRec

/-- The `for j, explanation in enumerate(batch_explanations)` loop: writes
`explanations[i + j] = explanation` when `i + j` is in range and appends the
corresponding section to the explanation document. -/
def assignLoop (allFiles : List CorpusEntry) (i : Nat) :
    List (Nat × String) → List String → String → List String × String
  | [], expl, explMd => (expl, explMd)
  | (j, e) :: rest, expl, explMd =>
    let idx := i + j
    if idx < expl.length then
      let rel := (allFiles.getD idx ⟨"", "", ""⟩).relPath
      assignLoop allFiles i rest (expl.set idx e)
        (explMd ++ "## " ++ toString (idx + 1) ++ ". " ++ safe_path rel ++ "\n\n" ++
          e ++ "\n\n")
    else assignLoop allFiles i rest expl explMd

/-- One iteration of `process_folder`'s batching loop at start index `i`:
collect the batch, keep the members whose contents are non-empty (appending
their sections to the code document), and if any remain, run one
`generate_batch_explanations` call — `call_llm` on the batch prompt followed
by `parse_batch_response` with `expected_count = len(batch_data)` — and
assign the parsed explanations to the slots at absolute offset `i`. -/
def processBatch (oracle : Nat → HttpResult) (jit : Nat → ℚ)
    (allFiles : List CorpusEntry) (bs : Nat) (st : BatchState) (i : Nat) : BatchState :=
  let batch := ((allFiles.enum).drop i).take bs
  let batchData := (batch.filter (fun p => p.2.code ≠ "")).map
    (fun p => (p.2.relPath, p.2.code, p.2.ext.drop 1))
  let codeMd := batch.foldl
    (fun acc p =>
      if p.2.code ≠ "" then
        acc ++ "## " ++ toString (p.1 + 1) ++ ". " ++ safe_path p.2.relPath ++ "\n```" ++
          p.2.ext.drop 1 ++ "\n" ++ p.2.code ++ "\n```\n\n"
      else acc)
    st.codeMd
  if batchData = [] then { st with codeMd := codeMd }
  else
    let r := callLLMR oracle jit (batchPrompt batchData) 3 st.step 0
    let batchExpl := parse_batch_response r.1 batchData.length
    let ae := assignLoop allFiles i batchExpl.enum st.explanations st.explanationMd
    { explanations := ae.1, codeMd := codeMd, explanationMd := ae.2,
      step := st.step + r.2.length, trace := st.trace ++ r.2 }

/-- The Python truthiness test `if explanation and not
explanation.startswith("⚠️")` of `generate_simple_quiz`. -/
def quizKeep (e : String) : Bool := e ≠ "" && !(e.startsWith "⚠️")

/-- One question section of the quiz document. -/
def questionBlock (i : Nat) (explanation : String) : String :=
  "### Question " ++ toString (i + 1) ++ "\n" ++ "What does this code do?\n\n" ++
    "**Hint:** " ++ explanation ++ "\n\n" ++
    "A) It processes data  \nB) It handles user input  \nC) It manages state  \nD) It renders UI\n\n" ++
    "**Answer:** *Discuss with your team!*\n\n"

/-- `generate_simple_quiz(explanations)`: iterate over `explanations[:10]`
and emit a question for every non-empty entry not starting with the error
marker.  No completion call is involved. -/
def generate_simple_quiz (explanations : List String) : String :=
  (explanations.take 10).enum.foldl
    (fun acc p => if quizKeep p.2 then acc ++ questionBlock p.1 p.2 else acc)
    ("# Quick Project Quiz\n\n" ++ "## Based on the code explanations\n\n")

/-- The outputs of one `process_folder` run: the explanation slots, the
three generated documents, and the trace of completion attempts. -/
structure FolderResult where
  explanations : List String
  codeMd : String
  explanationMd : String
  quizMd : String
  trace : List AttemptRec

/-- The loop state before the first batch: `explanations = [""] * len(all_files)`
and the seeded document headers. -/
def initBatchState (n : Nat) : BatchState :=
  ⟨List.replicate n "", "# Project Code\n\n", "# Project Explanations\n\n", 0, []⟩

/-- `process_folder` from its batching loop on (corpus collection and file
I/O are upstream of the pipeline): pre-size the explanation slots, process
the corpus in contiguous batches, then generate the quiz from the slots. -/
def processFolder (oracle : Nat → HttpResult) (jit : Nat → ℚ)
    (allFiles : List CorpusEntry) : FolderResult :=
  let n := allFiles.length
  let bs := batchSize n
  let st := (batchStarts n bs).foldl (processBatch oracle jit allFiles bs)
    (initBatchState n)
  ⟨st.explanations, st.codeMd, st.explanationMd, generate_simple_quiz st.explanations,
    st.trace⟩

/-- Python truthiness of `API_KEY` (`os.getenv` yields `None` when the
variable is unset; an empty string is also falsy). -/
def pyTruthy : Option String → Bool
  | none => false
  | some s => !(s == "")

/-- `main()`'s credential gate: with a missing or empty `OPENROUTER_API_KEY`
it raises `ValueError` before `process_folder` — and hence before any
completion request; otherwise it runs the pipeline. -/
def mainModel (apiKey : Option String) (oracle : Nat → HttpResult) (jit : Nat → ℚ)
    (allFiles : List CorpusEntry) : Except String FolderResult :=
  if pyTruthy apiKey then .ok (processFolder oracle jit allFiles)
  else .error "OPENROUTER_API_KEY not set in environment variables."

/-- A failure-only completion schedule: every attempt yields a rate limit,
an HTTP error status, or a request-level error whose message is a single
line (Python exception strings contain no newline). -/
def cleanFailures (oracle : Nat → HttpResult) : Prop :=
  ∀ k, match oracle k with
    | .response s _ => s = 429 ∨ (400 ≤ s ∧ s < 600)
    | .netError m => '\n' ∉ m.data

/-- A corpus of three small files, all with non-empty contents. -/
def sampleFiles : List CorpusEntry :=
  [⟨"a.py", "print(1)", ".py"⟩, ⟨"b.py", "print(2)", ".py"⟩,
    ⟨"c.py", "print(3)", ".py"⟩]

/-- A corpus whose single file has empty contents (e.g. an empty file, or
one whose read failed). -/
def emptyFileCorpus : List CorpusEntry := [⟨"a.py", "", ".py"⟩]

/-- A schedule whose first completion succeeds with a well-formed numbered
list for two files and which rate-limits every later attempt. -/
def c4Oracle : Nat → HttpResult := fun k =>
  if k = 0 then .response 200 "1. alpha\n2. beta" else .response 429 ""

end Decodr

namespace Decodr

theorem genericExplanations_length (n : Nat) : (genericExplanations n).length = n := by
  simp [genericExplanations]

/-- **C2.** Parser totality and all-or-nothing fallback: `parse_batch_response`
is a total function (it never raises by construction); for every input text and
every `expected_count` it returns exactly `expected_count` strings, and whenever
the number of matched numbered lines differs from `expected_count` it discards
all partial results and returns the full placeholder sequence
`"Code file i"` for `i` in `1..expected_count`. -/
theorem parse_batch_response_total_all_or_nothing (response : String) (expected_count : Nat) :
    (parse_batch_response response expected_count).length = expected_count ∧
      ((matchedItems response).length ≠ expected_count →
        parse_batch_response response expected_count =
          (List.range expected_count).map (fun i => "Code file " ++ toString (i + 1))) := by
  constructor
  · by_cases h : (matchedItems response).length = expected_count
    · simp [parse_batch_response, h]
    · simp [parse_batch_response, h, genericExplanations_length]
  · intro h
    simp [parse_batch_response, h, genericExplanations]

/-- Witness for C2 at a concrete non-numbered response. -/
theorem parse_batch_response_total_all_or_nothing_witness :
    (matchedItems "hello there").length ≠ 2 ∧
      parse_batch_response "hello there" 2 = ["Code file 1", "Code file 2"] := by
  refine ⟨by decide, ?_⟩
  have h := (parse_batch_response_total_all_or_nothing "hello there" 2).2 (by decide)
  simpa using h

/-- **C3.** Parser success-path alignment: whenever the scan finds exactly
`expected_count` numbered lines, `parse_batch_response` returns exactly those
lines, in original line order, with the numeric prefix and the whitespace after
it stripped; in particular `"1. Parses input\n2. Validates output\n"` with
`expected_count = 2` yields `["Parses input", "Validates output"]`. -/
theorem parse_batch_response_success_alignment (response : String) (expected_count : Nat)
    (h : (matchedItems response).length = expected_count) :
    parse_batch_response response expected_count = matchedItems response ∧
      parse_batch_response "1. Parses input\n2. Validates output\n" 2 =
        ["Parses input", "Validates output"] := by
  constructor
  · simp [parse_batch_response, h]
  · decide

/-- Witness for C3: the concrete scenario from the specification. -/
theorem parse_batch_response_success_alignment_witness :
    (matchedItems "1. Parses input\n2. Validates output\n").length = 2 ∧
      parse_batch_response "1. Parses input\n2. Validates output\n" 2 =
        ["Parses input", "Validates output"] := by
  refine ⟨by decide, ?_⟩
  exact (parse_batch_response_success_alignment "1. Parses input\n2. Validates output\n" 2
    (by decide)).2

theorem attemptLoop_chain (oracle : Nat → HttpResult) (jit : Nat → ℚ)
    (next : Nat → Nat → String × List AttemptRec) (mi : Nat)
    (Hc : ∀ s, List.Chain' advancesOn429 (next s (mi + 1)).2)
    (Hh : ∀ s r, ((next s (mi + 1)).2).head? = some r → r.rawIndex = mi + 1) :
    ∀ k attempt step,
      List.Chain' advancesOn429 (attemptLoop oracle jit next k attempt step mi).2 ∧
      ∀ r, ((attemptLoop oracle jit next k attempt step mi).2).head? = some r →
        r.rawIndex = mi := by
  intro k
  induction k with
  | zero => intro attempt step; simp [attemptLoop]
  | succ k ih =>
    intro attempt step
    by_cases h429 : is429 (oracle step)
    · simp only [attemptLoop, h429, if_true]
      refine ⟨List.chain'_cons'.mpr ⟨?_, Hc (step + 1)⟩, ?_⟩
      · intro y hy
        have hy' : ((next (step + 1) (mi + 1)).2).head? = some y := hy
        have := Hh (step + 1) y hy'
        simp [advancesOn429, this, h429]
      · intro r hr
        simp only [List.head?_cons, Option.some.injEq] at hr
        subst hr
        rfl
    · by_cases hfail : isFailure (oracle step)
      · by_cases hk : k = 0
        · subst hk
          simp only [attemptLoop, h429, hfail, Bool.false_eq_true, if_false, if_true]
          constructor
          · simp
          · intro r hr
            simp only [List.head?_cons, Option.some.injEq] at hr
            subst hr
            rfl
        · simp only [attemptLoop, h429, hfail, Bool.false_eq_true, if_false, if_true, hk]
          obtain ⟨hch, hhd⟩ := ih (attempt + 1) (step + 1)
          refine ⟨List.chain'_cons'.mpr ⟨?_, hch⟩, ?_⟩
          · intro y hy
            have hy' : ((attemptLoop oracle jit next k (attempt + 1) (step + 1) mi).2).head? =
                some y := hy
            have := hhd y hy'
            simp [advancesOn429, this, h429]
          · intro r hr
            simp only [List.head?_cons, Option.some.injEq] at hr
            subst hr
            rfl
      · simp only [attemptLoop, h429, hfail, Bool.false_eq_true, if_false]
        constructor
        · simp
        · intro r hr
          simp only [List.head?_cons, Option.some.injEq] at hr
          subst hr
          rfl

theorem callLLMR_chain (oracle : Nat → HttpResult) (jit : Nat → ℚ) (prompt : String) :
    ∀ retries step mi,
      List.Chain' advancesOn429 (callLLMR oracle jit prompt retries step mi).2 ∧
      ∀ r, ((callLLMR oracle jit prompt retries step mi).2).head? = some r →
        r.rawIndex = mi := by
  intro retries
  induction retries with
  | zero => intro step mi; simp [callLLMR]
  | succ r ih =>
    intro step mi
    have h := attemptLoop_chain oracle jit (fun s m => callLLMR oracle jit prompt r s m) mi
      (fun s => (ih s (mi + 1)).1) (fun s rr hrr => (ih s (mi + 1)).2 rr hrr)
      (r + 1) 0 step
    simpa [callLLMR] using h

theorem chain'_of_getElem? {α : Type} {R : α → α → Prop} {l : List α}
    (h : List.Chain' R l) {q : Nat} {r1 r2 : α}
    (h1 : l[q]? = some r1) (h2 : l[q + 1]? = some r2) : R r1 r2 := by
  have hq1 : q + 1 < l.length := by
    by_contra hcon
    push_neg at hcon
    rw [List.getElem?_eq_none hcon] at h2
    exact Option.noConfusion h2
  have hq : q < l.length := by omega
  have e1 : l[q]? = some (l.get ⟨q, hq⟩) := by
    rw [List.get_eq_getElem]
    exact List.getElem?_eq_getElem hq
  have e2 : l[q + 1]? = some (l.get ⟨q + 1, hq1⟩) := by
    rw [List.get_eq_getElem]
    exact List.getElem?_eq_getElem hq1
  rw [h1] at e1
  rw [h2] at e2
  obtain rfl : r1 = l.get ⟨q, hq⟩ := by
    injection e1
  obtain rfl : r2 = l.get ⟨q + 1, hq1⟩ := by
    injection e2
  have hadj := List.chain'_iff_get.mp h q (by omega)
  exact hadj

/-- **C7.** Rotation determinism: in every `call_llm` execution trace, the
attempt following a rate-limited attempt with model index `i` uses model
index `(i + 1) mod M` (`M = len(FREE_MODELS)`), and the raw `model_index`
argument is monotone across the retries of one logical request. -/
theorem call_llm_rotation_deterministic (oracle : Nat → HttpResult) (jit : Nat → ℚ)
    (prompt : String) (retries step mi q a b : Nat)
    (ha : (((callLLMR oracle jit prompt retries step mi).2).map
      (fun r => r.rawIndex))[q]? = some a)
    (hb : (((callLLMR oracle jit prompt retries step mi).2).map
      (fun r => r.rawIndex))[q + 1]? = some b) :
    ((((callLLMR oracle jit prompt retries step mi).2).map
        (fun r => is429 r.result))[q]? = some true →
      b % numModels = (a % numModels + 1) % numModels) ∧ a ≤ b := by
  have hch := (callLLMR_chain oracle jit prompt retries step mi).1
  set tr := (callLLMR oracle jit prompt retries step mi).2 with htr
  rw [List.getElem?_map] at ha hb
  cases h1 : tr[q]? with
  | none => rw [h1] at ha; exact Option.noConfusion ha
  | some r1 =>
    cases h2 : tr[q + 1]? with
    | none => rw [h2] at hb; exact Option.noConfusion hb
    | some r2 =>
      rw [h1] at ha
      rw [h2] at hb
      simp only [Option.map_some', Option.some.injEq] at ha hb
      have hadj : advancesOn429 r1 r2 := chain'_of_getElem? hch h1 h2
      unfold advancesOn429 at hadj
      have hM : numModels = 3 := rfl
      constructor
      · intro hc
        rw [List.getElem?_map, h1] at hc
        simp only [Option.map_some', Option.some.injEq] at hc
        rw [hc] at hadj
        simp at hadj
        rw [hM]
        omega
      · by_cases h9 : is429 r1.result
        · rw [h9] at hadj
          simp at hadj
          omega
        · rw [Bool.not_eq_true] at h9
          rw [h9] at hadj
          simp at hadj
          omega

/-- Witness for C7: on an all-429 schedule the first attempt uses model
index 0, is rate limited, and the second uses index 1 = (0 + 1) mod 3. -/
theorem call_llm_rotation_deterministic_witness :
    (((callLLMR all429Oracle zeroJit "p" 3 0 0).2).map (fun r => r.rawIndex))[0]? = some 0 ∧
    (((callLLMR all429Oracle zeroJit "p" 3 0 0).2).map (fun r => r.rawIndex))[1]? = some 1 ∧
    1 % numModels = (0 % numModels + 1) % numModels ∧ (0 : Nat) ≤ 1 := by
  have h := call_llm_rotation_deterministic all429Oracle zeroJit "p" 3 0 0 0 0 1
    (by decide) (by decide)
  exact ⟨by decide, by decide, h.1 (by decide), h.2⟩

theorem attemptLoop_length_le (oracle : Nat → HttpResult) (jit : Nat → ℚ)
    (next : Nat → Nat → String × List AttemptRec) (B : Nat)
    (Hnext : ∀ s m, ((next s m).2).length ≤ B) :
    ∀ k attempt step mi,
      ((attemptLoop oracle jit next k attempt step mi).2).length ≤ k + B := by
  intro k
  induction k with
  | zero => intro attempt step mi; simp [attemptLoop]
  | succ k ih =>
    intro attempt step mi
    by_cases h429 : is429 (oracle step)
    · simp only [attemptLoop, h429, if_true, List.length_cons]
      have := Hnext (step + 1) (mi + 1)
      omega
    · by_cases hfail : isFailure (oracle step)
      · by_cases hk : k = 0
        · subst hk
          simp [attemptLoop, h429, hfail]
        · simp only [attemptLoop, h429, hfail, Bool.false_eq_true, if_false, if_true, hk,
            List.length_cons]
          have := ih (attempt + 1) (step + 1) mi
          omega
      · simp only [attemptLoop, h429, hfail, Bool.false_eq_true, if_false, List.length_cons,
          List.length_nil]
        omega

theorem callLLMR_length_le (oracle : Nat → HttpResult) (jit : Nat → ℚ) (prompt : String) :
    ∀ retries step mi,
      ((callLLMR oracle jit prompt retries step mi).2).length ≤ maxAttempts retries := by
  intro retries
  induction retries with
  | zero => intro step mi; simp [callLLMR, maxAttempts]
  | succ r ih =>
    intro step mi
    have h := attemptLoop_length_le oracle jit (fun s m => callLLMR oracle jit prompt r s m)
      (maxAttempts r) (fun s m => ih s m) (r + 1) 0 step mi
    simpa [callLLMR, maxAttempts] using h

/-- **C6 (amended).** Retry budget bound: with the default budget
`retries = 3`, `call_llm` performs at most `3 + 2 + 1 = 6` completion attempts
across the whole model chain before returning (the rate-limit path restarts
the `for attempt in range(retries)` loop with `retries - 1`, so transient
errors interleaved with rate limits can accumulate up to 6 attempts; the
claimed bound of 3 holds only when no transient error precedes a 429). -/
theorem call_llm_attempt_budget (oracle : Nat → HttpResult) (jit : Nat → ℚ)
    (prompt : String) : ((call_llm oracle jit prompt).2).length ≤ 6 := by
  have h := callLLMR_length_le oracle jit prompt 3 0 0
  have hm : maxAttempts 3 = 6 := rfl
  rw [hm] at h
  exact h

/-- Counterexample to C6 as stated: on the schedule `c6Oracle` (transient,
transient, 429, transient, 429, 429) `call_llm` with the default budget 3
performs 6 attempts, not at most 3. -/
theorem call_llm_attempt_budget_counterexample :
    ((call_llm c6Oracle zeroJit "p").2).length = 6 ∧
      ¬ ((call_llm c6Oracle zeroJit "p").2).length ≤ 3 := by
  constructor
  · decide
  · decide

theorem attemptLoop_wait (oracle : Nat → HttpResult) (jit : Nat → ℚ)
    (next : Nat → Nat → String × List AttemptRec)
    (Hnext : ∀ s m r, r ∈ (next s m).2 → is429 r.result →
      r.wait = some (qmin 120 ((2 : ℚ) ^ r.attempt * 5 + jit r.step))) :
    ∀ k attempt step mi, ∀ r ∈ (attemptLoop oracle jit next k attempt step mi).2,
      is429 r.result →
        r.wait = some (qmin 120 ((2 : ℚ) ^ r.attempt * 5 + jit r.step)) := by
  intro k
  induction k with
  | zero => intro attempt step mi r hr; simp [attemptLoop] at hr
  | succ k ih =>
    intro attempt step mi r hr h9
    by_cases h429 : is429 (oracle step)
    · simp only [attemptLoop, h429, if_true, List.mem_cons] at hr
      rcases hr with rfl | hr
      · rfl
      · exact Hnext (step + 1) (mi + 1) r hr h9
    · by_cases hfail : isFailure (oracle step)
      · by_cases hk : k = 0
        · subst hk
          simp only [attemptLoop, h429, hfail, Bool.false_eq_true, if_false, if_true,
            List.mem_cons, List.not_mem_nil, or_false] at hr
          subst hr
          simp only at h9
          rw [h9] at h429
          exact absurd rfl h429
        · simp only [attemptLoop, h429, hfail, Bool.false_eq_true, if_false, if_true, hk,
            List.mem_cons] at hr
          rcases hr with rfl | hr
          · simp only at h9
            rw [h9] at h429
            exact absurd rfl h429
          · exact ih (attempt + 1) (step + 1) mi r hr h9
      · simp only [attemptLoop, h429, hfail, Bool.false_eq_true, if_false, List.mem_cons,
          List.not_mem_nil, or_false] at hr
        subst hr
        simp only at h9
        rw [h9] at h429
        exact absurd rfl h429

theorem callLLMR_wait (oracle : Nat → HttpResult) (jit : Nat → ℚ) (prompt : String) :
    ∀ retries step mi, ∀ r ∈ (callLLMR oracle jit prompt retries step mi).2,
      is429 r.result →
        r.wait = some (qmin 120 ((2 : ℚ) ^ r.attempt * 5 + jit r.step)) := by
  intro retries
  induction retries with
  | zero => intro step mi r hr; simp [callLLMR] at hr
  | succ n ih =>
    intro step mi r hr h9
    exact attemptLoop_wait oracle jit (fun s m => callLLMR oracle jit prompt n s m)
      (fun s m => ih s m) (n + 1) 0 step mi r (by simpa [callLLMR] using hr) h9

/-- **C8.** Backoff formula and monotonicity: every rate-limited attempt in a
`call_llm` trace computes the wait `min(120, 2^attempt * 5 + jitter)` with
the jitter drawn at that step, and, ignoring jitter, the wait for attempt
`i + 1` is at least the wait for attempt `i`, up to the cap 120. -/
theorem call_llm_backoff (oracle : Nat → HttpResult) (jit : Nat → ℚ) (prompt : String)
    (retries step mi : Nat) :
    (∀ r ∈ (callLLMR oracle jit prompt retries step mi).2, is429 r.result →
      r.wait = some (qmin 120 ((2 : ℚ) ^ r.attempt * 5 + jit r.step))) ∧
    ∀ i : Nat, qmin 120 ((2 : ℚ) ^ i * 5) ≤ qmin 120 ((2 : ℚ) ^ (i + 1) * 5) := by
  constructor
  · exact callLLMR_wait oracle jit prompt retries step mi
  · intro i
    have hp : (0 : ℚ) < 2 ^ i := by positivity
    have hle : (2 : ℚ) ^ i * 5 ≤ (2 : ℚ) ^ (i + 1) * 5 := by
      rw [pow_succ]
      nlinarith
    unfold qmin
    split_ifs with h1 h2
    · linarith
    · linarith
    · linarith
    · linarith

/-- Witness for C8: on the all-429 schedule with zero jitter, the first trace
entry is rate limited and carries wait `min(120, 2^0 * 5 + 0)`; the ignoring-
jitter wait at attempt 1 dominates the one at attempt 0. -/
theorem call_llm_backoff_witness :
    (∃ r ∈ (callLLMR all429Oracle zeroJit "p" 3 0 0).2,
      is429 r.result = true ∧ r.wait = some (qmin 120 ((2 : ℚ) ^ r.attempt * 5 + 0))) ∧
    qmin 120 ((2 : ℚ) ^ 0 * 5) ≤ qmin 120 ((2 : ℚ) ^ (0 + 1) * 5) := by
  have h := call_llm_backoff all429Oracle zeroJit "p" 3 0 0
  constructor
  · cases htr : ((callLLMR all429Oracle zeroJit "p" 3 0 0).2).head? with
    | none =>
      have hlen : ((callLLMR all429Oracle zeroJit "p" 3 0 0).2).length = 3 := by decide
      rw [List.head?_eq_none_iff] at htr
      rw [htr] at hlen
      exact absurd hlen (by decide)
    | some r =>
      have hmem : r ∈ (callLLMR all429Oracle zeroJit "p" 3 0 0).2 :=
        List.mem_of_mem_head? (by rw [htr]; rfl)
      have h9 : is429 r.result = true := by
        have hm : (((callLLMR all429Oracle zeroJit "p" 3 0 0).2).map
            (fun r => is429 r.result)).head? = some true := by decide
        rw [List.head?_map, htr] at hm
        simpa using hm
      exact ⟨r, hmem, h9, h.1 r hmem h9⟩
  · exact h.2 0

theorem attemptLoop_const_failure (oracle : Nat → HttpResult) (jit : Nat → ℚ)
    (next : Nat → Nat → String × List AttemptRec) (fail : HttpResult)
    (h429 : is429 fail = false) (hfail : isFailure fail = true)
    (hor : ∀ k, oracle k = fail) :
    ∀ k attempt step mi, 0 < k →
      (attemptLoop oracle jit next k attempt step mi).1 = errorPlaceholder (excMsg fail) ∧
      ((attemptLoop oracle jit next k attempt step mi).2).length = k ∧
      ∀ r ∈ (attemptLoop oracle jit next k attempt step mi).2, r.rawIndex = mi := by
  intro k
  induction k with
  | zero => intro attempt step mi h; omega
  | succ k ih =>
    intro attempt step mi _
    by_cases hk : k = 0
    · subst hk
      simp [attemptLoop, hor, h429, hfail]
    · have hrec := ih (attempt + 1) (step + 1) mi (by omega)
      simp only [attemptLoop, hor, h429, hfail, Bool.false_eq_true, if_false, if_true, hk]
      refine ⟨hrec.1, by simp [hrec.2.1], ?_⟩
      intro r hr
      simp only [List.mem_cons] at hr
      rcases hr with rfl | hr
      · rfl
      · exact hrec.2.2 r hr

/-- **C5 (amended).** A 4xx status other than 429 raises `HTTPError` inside
the loop and is handled like any transient `RequestException`: `call_llm`
retries the same model with exponential backoff and performs all `retries`
attempts; only after the final attempt does it surface the failure, as the
`errorPlaceholder` embedding the original cause (the `HTTPError` message with
the status code).  The claim's no-retry behaviour does not hold: a further
attempt is always made while budget remains. -/
theorem call_llm_4xx_transient (oracle : Nat → HttpResult) (jit : Nat → ℚ)
    (prompt : String) (status : Nat) (body : String) (retries step mi : Nat)
    (hr : 0 < retries) (h4 : 400 ≤ status) (h6 : status < 600) (hne : status ≠ 429)
    (hor : ∀ k, oracle k = .response status body) :
    (callLLMR oracle jit prompt retries step mi).1 =
      errorPlaceholder (statusMsg status) ∧
    ((callLLMR oracle jit prompt retries step mi).2).length = retries ∧
    ∀ r ∈ (callLLMR oracle jit prompt retries step mi).2, r.rawIndex = mi := by
  obtain ⟨n, rfl⟩ : ∃ n, retries = n + 1 := ⟨retries - 1, by omega⟩
  have h429 : is429 (HttpResult.response status body) = false := by
    simp [is429, hne]
  have hf : isFailure (HttpResult.response status body) = true := by
    simp only [isFailure, decide_eq_true_eq]
    omega
  have h := attemptLoop_const_failure oracle jit
    (fun s m => callLLMR oracle jit prompt n s m) (.response status body) h429 hf hor
    (n + 1) 0 step mi (by omega)
  simpa [callLLMR, excMsg] using h

/-- Counterexample to C5 as stated: on the schedule `c5Oracle` the first
attempt gets a plain 400 response, yet `call_llm` performs a second attempt,
which succeeds — it neither stops after the 4xx nor surfaces the failure. -/
theorem call_llm_no_retry_4xx_counterexample :
    ((call_llm c5Oracle zeroJit "p").2).map (fun r => r.result) =
      [.response 400 "x", .response 200 "ok"] ∧
    (call_llm c5Oracle zeroJit "p").1 = "ok" := by
  constructor
  · decide
  · decide

/-- Witness for C5 (amended) at a constant-404 schedule with budget 3. -/
theorem call_llm_4xx_transient_witness :
    (callLLMR (fun _ => .response 404 "") zeroJit "p" 3 0 0).1 =
      errorPlaceholder (statusMsg 404) ∧
    ((callLLMR (fun _ => .response 404 "") zeroJit "p" 3 0 0).2).length = 3 := by
  have h := call_llm_4xx_transient (fun _ => .response 404 "") zeroJit "p" 404 "" 3 0 0
    (by decide) (by decide) (by decide) (by decide) (fun _ => rfl)
  exact ⟨h.1, h.2.1⟩

/-- **C9.** Quiz determinism: the quiz document of a run is computed by
`generate_simple_quiz` from the explanation slots alone — the quiz step
consults neither the completion oracle nor the jitter source — so any two
runs whose explanation sequences are equal produce identical quiz
documents. -/
theorem quiz_reproducible (o1 : Nat → HttpResult) (j1 : Nat → ℚ) (f1 : List CorpusEntry)
    (o2 : Nat → HttpResult) (j2 : Nat → ℚ) (f2 : List CorpusEntry) :
    (processFolder o1 j1 f1).quizMd =
      generate_simple_quiz (processFolder o1 j1 f1).explanations ∧
    ((processFolder o1 j1 f1).explanations = (processFolder o2 j2 f2).explanations →
      (processFolder o1 j1 f1).quizMd = (processFolder o2 j2 f2).quizMd) := by
  have e1 : (processFolder o1 j1 f1).quizMd =
      generate_simple_quiz (processFolder o1 j1 f1).explanations := rfl
  have e2 : (processFolder o2 j2 f2).quizMd =
      generate_simple_quiz (processFolder o2 j2 f2).explanations := rfl
  exact ⟨e1, fun h => by rw [e1, e2, h]⟩

/-- Witness for C9: two runs over the same corpus and schedule agree. -/
theorem quiz_reproducible_witness :
    (processFolder c4Oracle zeroJit sampleFiles).quizMd =
      (processFolder c4Oracle zeroJit sampleFiles).quizMd :=
  (quiz_reproducible c4Oracle zeroJit sampleFiles c4Oracle zeroJit sampleFiles).2 rfl

theorem foldl_filter_append {α : Type} (P : α → Bool) (f : α → String) :
    ∀ (l : List α) (init : String),
      l.foldl (fun acc x => if P x then acc ++ f x else acc) init =
        ((l.filter P).map f).foldl (fun a b => a ++ b) init := by
  intro l
  induction l with
  | nil => intro init; rfl
  | cons x xs ih =>
    intro init
    by_cases h : P x
    · simp only [List.foldl_cons, h, if_true, List.filter_cons, List.map_cons]
      exact ih (init ++ f x)
    · simp only [List.foldl_cons, h, Bool.false_eq_true, if_false, List.filter_cons]
      exact ih init

/-- **C10.** Implicit quiz truncation and filtering: the quiz body is exactly
the question blocks of the entries of `explanations[:10]` that are non-empty
and do not start with the error marker, appended to the fixed header — so the
quiz draws questions only from the first 10 entries, contains at most 10
questions regardless of corpus size, and silently omits empty or
marker-prefixed entries (and can therefore have fewer questions than there
are files). -/
theorem quiz_truncation_filtering (explanations : List String) :
    generate_simple_quiz explanations =
      ((((explanations.take 10).enum.filter (fun p => quizKeep p.2)).map
        (fun p => questionBlock p.1 p.2)).foldl (fun a b => a ++ b)
        ("# Quick Project Quiz\n\n" ++ "## Based on the code explanations\n\n")) ∧
    ((explanations.take 10).enum.filter (fun p => quizKeep p.2)).length ≤ 10 ∧
    ∀ p ∈ (explanations.take 10).enum.filter (fun p => quizKeep p.2),
      p.2 ∈ explanations.take 10 ∧ p.2 ≠ "" ∧ p.2.startsWith "⚠️" = false := by
  refine ⟨foldl_filter_append _ _ _ _, ?_, ?_⟩
  · have h1 := List.length_filter_le (fun p => quizKeep p.2) (explanations.take 10).enum
    have h2 : (explanations.take 10).enum.length = (explanations.take 10).length :=
      List.enum_length
    have h3 := List.length_take 10 explanations
    have h4 : (explanations.take 10).length ≤ 10 := by
      rw [h3]; exact min_le_left _ _
    omega
  · intro p hp
    rw [List.mem_filter] at hp
    obtain ⟨hmem, hkeep⟩ := hp
    have h2 : p.2 ∈ explanations.take 10 := by
      rw [List.mem_enum_iff_getElem?] at hmem
      exact List.getElem?_mem hmem
    have hk : p.2 ≠ "" ∧ p.2.startsWith "⚠️" = false := by
      simp only [quizKeep, Bool.and_eq_true, ne_eq, decide_eq_true_eq,
        Bool.not_eq_true'] at hkeep
      exact hkeep
    exact ⟨h2, hk.1, hk.2⟩

/-- Witness for C10: in the list `["alpha", "", "⚠️ bad"]` the entry
`"alpha"` is kept and indeed non-empty and unmarked. -/
theorem quiz_truncation_filtering_witness :
    "alpha" ∈ (["alpha", "", "⚠️ bad"].take 10) ∧ "alpha" ≠ "" ∧
      "alpha".startsWith "⚠️" = false := by
  exact (quiz_truncation_filtering ["alpha", "", "⚠️ bad"]).2.2 (0, "alpha") (by decide)

theorem digitChar_ne_newline : ∀ d, d < 10 → digitChar d ≠ '\n' := by decide

theorem natToStrGo_no_newline : ∀ fuel n, '\n' ∉ natToStrGo fuel n := by
  intro fuel
  induction fuel with
  | zero => intro n; simp [natToStrGo]
  | succ fuel ih =>
    intro n
    by_cases h : n < 10
    · simp only [natToStrGo, h, if_true, List.mem_singleton]
      intro hc
      exact digitChar_ne_newline n h hc.symm
    · simp only [natToStrGo, h, if_false, List.mem_append, List.mem_singleton]
      rintro (h1 | h2)
      · exact ih (n / 10) h1
      · exact digitChar_ne_newline (n % 10) (Nat.mod_lt _ (by omega)) h2.symm

theorem natToStr_no_newline (n : Nat) : '\n' ∉ (natToStr n).data :=
  natToStrGo_no_newline (n + 1) n

theorem statusMsg_no_newline (s : Nat) : '\n' ∉ (statusMsg s).data := by
  unfold statusMsg
  rw [String.data_append]
  intro h
  rcases List.mem_append.mp h with h1 | h1
  · exact natToStr_no_newline s h1
  · exact absurd h1 (by decide)

theorem splitNl_no_newline : ∀ cs : List Char, '\n' ∉ cs → splitNl cs = [cs] := by
  intro cs
  induction cs with
  | nil => intro; rfl
  | cons c cs ih =>
    intro h
    have hc : ¬(c = '\n') := fun e => h (e ▸ List.mem_cons_self c cs)
    have hcs : '\n' ∉ cs := fun e => h (List.mem_cons_of_mem _ e)
    simp [splitNl, hc, ih hcs]

theorem stripCs_cons_not_space {c : Char} (h : ¬ isPySpace c = true) (cs : List Char) :
    ∃ w, stripCs (c :: cs) = c :: w := by
  unfold stripCs
  rw [List.dropWhile_cons, if_neg h, List.reverse_cons, List.dropWhile_append]
  by_cases he : (List.dropWhile isPySpace cs.reverse).isEmpty = true
  · rw [if_pos he, List.dropWhile_cons]
    simp only [List.dropWhile_nil, if_neg h, List.reverse_cons, List.reverse_nil,
      List.nil_append]
    exact ⟨[], rfl⟩
  · rw [if_neg he, List.reverse_append, List.reverse_cons, List.reverse_nil,
      List.nil_append]
    exact ⟨(List.dropWhile isPySpace cs.reverse).reverse, rfl⟩

theorem numberedRem_not_digit_head {c : Char} (h1 : ¬ isPySpace c = true)
    (h2 : c.isDigit = false) (cs : List Char) : numberedRem (c :: cs) = none := by
  obtain ⟨w, hw⟩ := stripCs_cons_not_space h1 cs
  simp only [numberedRem, hw, List.takeWhile_cons, h2, Bool.false_eq_true, if_false]
  simp

theorem matchedItems_no_numbered (s : String) (hnl : '\n' ∉ s.data)
    (hnum : numberedRem s.data = none) : matchedItems s = [] := by
  unfold matchedItems
  rw [splitNl_no_newline s.data hnl]
  simp [hnum]

theorem matchedItems_errorPlaceholder (msg : String) (h : '\n' ∉ msg.data) :
    matchedItems (errorPlaceholder msg) = [] := by
  have hdata : (errorPlaceholder msg).data =
      '⚠' :: ("️ Could not generate explanation due to API error: ".data ++
        msg.data) := by
    show ("⚠️ Could not generate explanation due to API error: " ++ msg).data = _
    rw [String.data_append]
    have hpre : ("⚠️ Could not generate explanation due to API error: ").data =
        '⚠' :: "️ Could not generate explanation due to API error: ".data := by
      decide
    rw [hpre]
    rfl
  apply matchedItems_no_numbered
  · rw [hdata]
    intro hc
    rcases List.mem_cons.mp hc with h1 | h1
    · exact absurd h1 (by decide)
    · rcases List.mem_append.mp h1 with h2 | h2
      · exact absurd h2 (by decide)
      · exact h h2
  · rw [hdata]
    exact numberedRem_not_digit_head (by decide) (by decide) _

theorem matchedItems_unavailable : matchedItems unavailableMsg = [] := by decide

theorem excMsg_no_newline (oracle : Nat → HttpResult) (hclean : cleanFailures oracle)
    (s : Nat) : '\n' ∉ (excMsg (oracle s)).data := by
  have hc := hclean s
  cases hres : oracle s with
  | response st b => exact statusMsg_no_newline st
  | netError m =>
    rw [hres] at hc
    exact hc

theorem attemptLoop_clean (oracle : Nat → HttpResult) (jit : Nat → ℚ)
    (next : Nat → Nat → String × List AttemptRec) (hclean : cleanFailures oracle)
    (Hnext : ∀ s m, matchedItems (next s m).1 = []) :
    ∀ k attempt step mi,
      matchedItems (attemptLoop oracle jit next k attempt step mi).1 = [] := by
  intro k
  induction k with
  | zero => intro a s mi; exact matchedItems_unavailable
  | succ k ih =>
    intro a s mi
    by_cases h429 : is429 (oracle s)
    · simp only [attemptLoop, h429, if_true]
      exact Hnext (s + 1) (mi + 1)
    · by_cases hfail : isFailure (oracle s)
      · by_cases hk : k = 0
        · subst hk
          simp only [attemptLoop, h429, hfail, Bool.false_eq_true, if_false, if_true,
            if_pos rfl]
          exact matchedItems_errorPlaceholder _ (excMsg_no_newline oracle hclean s)
        · simp only [attemptLoop, h429, hfail, Bool.false_eq_true, if_false, if_true, hk]
          exact ih (a + 1) (s + 1) mi
      · exfalso
        have hc := hclean s
        cases hres : oracle s with
        | response st b =>
          rw [hres] at hc h429 hfail
          have hc2 : st = 429 ∨ (400 ≤ st ∧ st < 600) := hc
          rcases hc2 with rfl | hc2
          · exact h429 (by simp [is429])
          · apply hfail
            simp only [isFailure, decide_eq_true_eq]
            omega
        | netError m =>
          rw [hres] at hfail
          exact hfail rfl

theorem callLLMR_clean (oracle : Nat → HttpResult) (jit : Nat → ℚ) (prompt : String)
    (hclean : cleanFailures oracle) :
    ∀ retries step mi,
      matchedItems (callLLMR oracle jit prompt retries step mi).1 = [] := by
  intro retries
  induction retries with
  | zero => intro s m; exact matchedItems_unavailable
  | succ r ih =>
    intro s m
    simp only [callLLMR]
    exact attemptLoop_clean oracle jit _ hclean (fun s' m' => ih s' m') (r + 1) 0 s m

theorem assignLoop_length (allFiles : List CorpusEntry) (i : Nat) :
    ∀ (l : List (Nat × String)) (expl : List String) (md : String),
      ((assignLoop allFiles i l expl md).1).length = expl.length := by
  intro l
  induction l with
  | nil => intro expl md; rfl
  | cons je rest ih =>
    intro expl md
    obtain ⟨j, e⟩ := je
    by_cases h : i + j < expl.length
    · simp only [assignLoop, h, if_true]
      rw [ih, List.length_set]
    · simp only [assignLoop, h, if_false]
      exact ih expl md

theorem assignLoop_getElem? (allFiles : List CorpusEntry) (i : Nat) :
    ∀ (vs : List String) (j0 : Nat) (expl : List String) (md : String) (idx : Nat),
      ((assignLoop allFiles i (List.enumFrom j0 vs) expl md).1)[idx]? =
        if i + j0 ≤ idx ∧ idx < i + j0 + vs.length ∧ idx < expl.length then
          vs[idx - (i + j0)]?
        else expl[idx]? := by
  intro vs
  induction vs with
  | nil =>
    intro j0 expl md idx
    simp only [List.enumFrom_nil, assignLoop, List.length_nil]
    rw [if_neg (by omega)]
  | cons v vs ih =>
    intro j0 expl md idx
    rw [List.enumFrom_cons]
    simp only [List.length_cons]
    by_cases hguard : i + j0 < expl.length
    · simp only [assignLoop, hguard, if_true]
      rw [ih (j0 + 1) (expl.set (i + j0) v) _ idx, List.length_set]
      by_cases hA : idx = i + j0
      · subst hA
        rw [if_neg (by omega), if_pos (by omega)]
        rw [Nat.sub_self, List.getElem?_cons_zero]
        exact List.getElem?_set_self hguard
      · by_cases hB : i + (j0 + 1) ≤ idx ∧ idx < i + (j0 + 1) + vs.length ∧
            idx < expl.length
        · rw [if_pos hB, if_pos (by omega)]
          have hd : idx - (i + j0) = (idx - (i + (j0 + 1))) + 1 := by omega
          rw [hd, List.getElem?_cons_succ]
        · rw [if_neg hB, if_neg (by omega)]
          exact List.getElem?_set_ne (by omega)
    · simp only [assignLoop, hguard, if_false]
      rw [ih (j0 + 1) expl md idx]
      rw [if_neg (by omega), if_neg (by omega)]

theorem processBatch_clean (oracle : Nat → HttpResult) (jit : Nat → ℚ)
    (allFiles : List CorpusEntry) (bs : Nat) (st : BatchState) (i : Nat)
    (hclean : cleanFailures oracle)
    (hcode : ∀ f ∈ allFiles, f.code ≠ "")
    (hbs : 0 < bs) (hi : i < allFiles.length)
    (hlen : st.explanations.length = allFiles.length) :
    ((processBatch oracle jit allFiles bs st i).explanations).length =
      allFiles.length ∧
    ∀ idx : Nat,
      ((processBatch oracle jit allFiles bs st i).explanations)[idx]? =
        if i ≤ idx ∧ idx < i + min bs (allFiles.length - i) then
          some ("Code file " ++ toString (idx - i + 1))
        else st.explanations[idx]? := by
  simp only [processBatch]
  set batch := ((allFiles.enum).drop i).take bs with hbatch
  have hbatchlen : batch.length = min bs (allFiles.length - i) := by
    rw [hbatch, List.length_take, List.length_drop, List.enum_length]
  have hall : ∀ p ∈ batch, p.2.code ≠ "" := by
    intro p hp
    have h1 : p ∈ allFiles.enum :=
      List.mem_of_mem_drop (List.mem_of_mem_take hp)
    have h2 : p.2 ∈ allFiles :=
      List.getElem?_mem (List.mem_enum_iff_getElem?.mp h1)
    exact hcode p.2 h2
  have hfilter : batch.filter (fun p => p.2.code ≠ "") = batch := by
    apply List.filter_eq_self.mpr
    intro a ha
    simpa using hall a ha
  rw [hfilter]
  have hLpos : 0 < min bs (allFiles.length - i) := by omega
  have hne :
      batch.map (fun p => (p.2.relPath, p.2.code, p.2.ext.drop 1)) ≠ [] := by
    intro h
    have := congrArg List.length h
    rw [List.length_map, hbatchlen] at this
    simp at this
    omega
  rw [if_neg hne]
  have hparse :
      parse_batch_response
        (callLLMR oracle jit
          (batchPrompt (batch.map (fun p => (p.2.relPath, p.2.code, p.2.ext.drop 1))))
          3 st.step 0).1
        (batch.map (fun p => (p.2.relPath, p.2.code, p.2.ext.drop 1))).length =
      genericExplanations (min bs (allFiles.length - i)) := by
    unfold parse_batch_response
    rw [callLLMR_clean oracle jit _ hclean 3 st.step 0]
    rw [List.length_map, hbatchlen]
    rw [if_pos (by simpa using Nat.ne_of_lt hLpos)]
  rw [hparse]
  constructor
  · rw [assignLoop_length, hlen]
  · intro idx
    have h0 : (genericExplanations (min bs (allFiles.length - i))).enum =
        List.enumFrom 0 (genericExplanations (min bs (allFiles.length - i))) := rfl
    rw [h0, assignLoop_getElem?]
    rw [genericExplanations_length, hlen]
    have hsub : min bs (allFiles.length - i) ≤ allFiles.length - i := min_le_right _ _
    by_cases hc : i ≤ idx ∧ idx < i + min bs (allFiles.length - i)
    · rw [if_pos hc, if_pos (by omega)]
      have hg : (genericExplanations (min bs (allFiles.length - i)))[idx - (i + 0)]? =
          some ("Code file " ++ toString ((idx - (i + 0)) + 1)) := by
        unfold genericExplanations
        rw [List.getElem?_map, List.getElem?_range (by omega)]
        rfl
      rw [hg]
      simp only [Nat.add_zero]
    · rw [if_neg hc, if_neg (by omega)]

theorem processBatch_length (oracle : Nat → HttpResult) (jit : Nat → ℚ)
    (allFiles : List CorpusEntry) (bs : Nat) (st : BatchState) (i : Nat) :
    ((processBatch oracle jit allFiles bs st i).explanations).length =
      st.explanations.length := by
  simp only [processBatch]
  split
  · rfl
  · exact assignLoop_length _ _ _ _ _

theorem foldBatches_length (oracle : Nat → HttpResult) (jit : Nat → ℚ)
    (allFiles : List CorpusEntry) (bs : Nat) :
    ∀ (starts : List Nat) (st : BatchState),
      (((starts.foldl (processBatch oracle jit allFiles bs) st)).explanations).length =
        st.explanations.length := by
  intro starts
  induction starts with
  | nil => intro st; rfl
  | cons s rest ih =>
    intro st
    rw [List.foldl_cons, ih, processBatch_length]

theorem batchSize_pos (n : Nat) : 0 < batchSize n := by
  unfold batchSize
  omega

theorem mul_lt_of_lt_numBatches {n bs k : Nat} (hk : k < numBatches n bs) :
    k * bs < n := by
  have hq : numBatches n bs * bs ≤ n + bs - 1 := Nat.div_mul_le_self _ _
  have h1 : (k + 1) * bs ≤ numBatches n bs * bs := Nat.mul_le_mul_right bs hk
  have h2 : (k + 1) * bs = k * bs + bs := by ring
  rw [h2] at h1
  have h3 : k * bs + bs ≤ n + bs - 1 := le_trans h1 hq
  have hbs : 0 < bs := by
    by_contra hb
    push_neg at hb
    interval_cases bs
    simp [numBatches] at hk
  generalize k * bs = a at h3 ⊢
  omega

theorem le_numBatches_mul {n bs : Nat} (hbs : 0 < bs) : n ≤ numBatches n bs * bs := by
  unfold numBatches
  rw [Nat.mul_comm]
  have hdm := Nat.div_add_mod (n + bs - 1) bs
  have hmod : (n + bs - 1) % bs < bs := Nat.mod_lt _ hbs
  generalize bs * ((n + bs - 1) / bs) = P at hdm ⊢
  omega

theorem foldBatches_clean (oracle : Nat → HttpResult) (jit : Nat → ℚ)
    (allFiles : List CorpusEntry) (bs : Nat)
    (hclean : cleanFailures oracle) (hcode : ∀ f ∈ allFiles, f.code ≠ "")
    (hbs : 0 < bs) :
    ∀ j, j ≤ numBatches allFiles.length bs →
      ((((List.range j).map (fun k => k * bs)).foldl
          (processBatch oracle jit allFiles bs)
          (initBatchState allFiles.length)).explanations).length =
        allFiles.length ∧
      ∀ idx, idx < allFiles.length →
        (idx < j * bs →
          ∃ m, (((List.range j).map (fun k => k * bs)).foldl
              (processBatch oracle jit allFiles bs)
              (initBatchState allFiles.length)).explanations[idx]? =
            some ("Code file " ++ toString (m + 1))) ∧
        (j * bs ≤ idx →
          (((List.range j).map (fun k => k * bs)).foldl
              (processBatch oracle jit allFiles bs)
              (initBatchState allFiles.length)).explanations[idx]? = some "") := by
  intro j
  induction j with
  | zero =>
    intro _
    refine ⟨by simp [initBatchState], ?_⟩
    intro idx hidx
    constructor
    · intro h
      omega
    · intro _
      simp only [List.range_zero, List.map_nil, List.foldl_nil, initBatchState]
      rw [List.getElem?_replicate, if_pos hidx]
  | succ j ih =>
    intro hj1
    have hjB : j < numBatches allFiles.length bs := by omega
    have hstart : j * bs < allFiles.length := mul_lt_of_lt_numBatches hjB
    obtain ⟨hplen, hinv⟩ := ih (by omega)
    rw [List.range_succ, List.map_append, List.foldl_append]
    simp only [List.map_cons, List.map_nil, List.foldl_cons, List.foldl_nil]
    set prev := (((List.range j).map (fun k => k * bs)).foldl
      (processBatch oracle jit allFiles bs) (initBatchState allFiles.length))
      with hprev
    have hstep := processBatch_clean oracle jit allFiles bs prev (j * bs)
      hclean hcode hbs hstart hplen
    refine ⟨hstep.1, ?_⟩
    intro idx hidx
    have hchar := hstep.2 idx
    have hminle : min bs (allFiles.length - j * bs) ≤ bs := min_le_left _ _
    have hminle2 : min bs (allFiles.length - j * bs) ≤ allFiles.length - j * bs :=
      min_le_right _ _
    have hsucc : (j + 1) * bs = j * bs + bs := by ring
    constructor
    · intro hlt
      rw [hsucc] at hlt
      by_cases hin : j * bs ≤ idx ∧ idx < j * bs + min bs (allFiles.length - j * bs)
      · exact ⟨idx - j * bs, by rw [hchar, if_pos hin]⟩
      · have hlt' : idx < j * bs := by
          rcases Nat.lt_or_ge idx (j * bs) with h | h
          · exact h
          · exfalso
            apply hin
            refine ⟨h, ?_⟩
            omega
        obtain ⟨m, hm⟩ := (hinv idx hidx).1 hlt'
        refine ⟨m, ?_⟩
        rw [hchar, if_neg hin]
        exact hm
    · intro hge
      rw [hsucc] at hge
      have hnotin : ¬(j * bs ≤ idx ∧ idx < j * bs + min bs (allFiles.length - j * bs)) := by
        intro hcontra
        omega
      rw [hchar, if_neg hnotin]
      exact (hinv idx hidx).2 (by omega)

theorem processFolder_length (oracle : Nat → HttpResult) (jit : Nat → ℚ)
    (files : List CorpusEntry) :
    (processFolder oracle jit files).explanations.length = files.length := by
  have h := foldBatches_length oracle jit files (batchSize files.length)
    (batchStarts files.length (batchSize files.length)) (initBatchState files.length)
  have he : (processFolder oracle jit files).explanations =
      ((batchStarts files.length (batchSize files.length)).foldl
        (processBatch oracle jit files (batchSize files.length))
        (initBatchState files.length)).explanations := rfl
  rw [he, h]
  simp [initBatchState]

theorem processFolder_clean_slots (oracle : Nat → HttpResult) (jit : Nat → ℚ)
    (files : List CorpusEntry)
    (hclean : cleanFailures oracle) (hcode : ∀ f ∈ files, f.code ≠ "") :
    ∀ e ∈ (processFolder oracle jit files).explanations,
      (∃ m, e = "Code file " ++ toString (m + 1)) ∧ e ≠ "" := by
  intro e he
  have he2 : (processFolder oracle jit files).explanations =
      (((List.range (numBatches files.length (batchSize files.length))).map
          (fun k => k * batchSize files.length)).foldl
        (processBatch oracle jit files (batchSize files.length))
        (initBatchState files.length)).explanations := rfl
  rw [he2] at he
  have hfold := foldBatches_clean oracle jit files (batchSize files.length)
    hclean hcode (batchSize_pos _)
    (numBatches files.length (batchSize files.length)) (le_refl _)
  obtain ⟨idx, hidx⟩ := List.mem_iff_getElem?.mp he
  have hlt : idx < files.length := by
    by_contra hcon
    push_neg at hcon
    rw [List.getElem?_eq_none (by rw [hfold.1]; omega)] at hidx
    exact Option.noConfusion hidx
  have hplace := (hfold.2 idx hlt).1
    (lt_of_lt_of_le hlt (le_numBatches_mul (batchSize_pos _)))
  obtain ⟨m, hm⟩ := hplace
  rw [hidx] at hm
  have hme : e = "Code file " ++ toString (m + 1) := by
    injection hm
  refine ⟨⟨m, hme⟩, ?_⟩
  intro hemp
  rw [hemp] at hme
  have hl := congrArg String.length hme
  rw [String.length_append] at hl
  have h10 : ("Code file " : String).length = 10 := rfl
  rw [h10] at hl
  have h0 : ("" : String).length = 0 := rfl
  rw [h0] at hl
  omega

/-- **C1 (amended).** Cardinality holds unconditionally: for every corpus of
size N and every completion schedule, `process_folder` produces exactly N
explanation slots.  Non-emptiness requires two further assumptions the code
does not guarantee in general: if every corpus entry has non-empty contents
and every completion attempt fails (failure-only schedule with single-line
error messages), then every slot is the deterministic non-empty placeholder
`"Code file i"`.  (A corpus entry with empty contents is silently dropped
from its batch, leaving slots empty — see the counterexample.) -/
theorem pipeline_cardinality (oracle : Nat → HttpResult) (jit : Nat → ℚ)
    (files : List CorpusEntry) :
    (processFolder oracle jit files).explanations.length = files.length ∧
    (cleanFailures oracle → (∀ f ∈ files, f.code ≠ "") →
      ∀ e ∈ (processFolder oracle jit files).explanations,
        (∃ m, e = "Code file " ++ toString (m + 1)) ∧ e ≠ "") :=
  ⟨processFolder_length oracle jit files,
   fun hclean hcode e he => processFolder_clean_slots oracle jit files hclean hcode e he⟩

/-- Counterexample to C1 as stated: a corpus of one file with empty contents
(e.g. an unreadable or empty file) yields an explanation sequence whose only
entry is the empty string — the entry is left empty even though the run
completes normally. -/
theorem pipeline_cardinality_counterexample :
    (processFolder (fun _ => .response 200 "x") zeroJit emptyFileCorpus).explanations =
      [""] ∧
    "" ∈ (processFolder (fun _ => .response 200 "x") zeroJit emptyFileCorpus).explanations
      := by
  constructor
  · decide
  · decide

/-- Witness for C1 (amended): the all-429 schedule over a three-file corpus
with non-empty contents fills every slot with a placeholder. -/
theorem pipeline_cardinality_witness :
    (processFolder all429Oracle zeroJit sampleFiles).explanations.length = 3 ∧
    "Code file 1" ∈ (processFolder all429Oracle zeroJit sampleFiles).explanations ∧
    (∃ m, "Code file 1" = "Code file " ++ toString (m + 1)) ∧
    ("Code file 1" : String) ≠ "" := by
  have h := pipeline_cardinality all429Oracle zeroJit sampleFiles
  have hmem : "Code file 1" ∈ (processFolder all429Oracle zeroJit sampleFiles).explanations := by
    decide
  have h2 := h.2 (fun k => Or.inl rfl) (by decide) "Code file 1" hmem
  exact ⟨by rw [h.1]; rfl, hmem, h2.1, h2.2⟩

theorem callLLMR_all429 (oracle : Nat → HttpResult) (jit : Nat → ℚ) (prompt : String)
    (h : ∀ k, oracle k = .response 429 "") :
    ∀ retries step mi, (callLLMR oracle jit prompt retries step mi).1 = unavailableMsg ∧
      ((callLLMR oracle jit prompt retries step mi).2).length = retries := by
  intro retries
  induction retries with
  | zero => intro s m; exact ⟨rfl, rfl⟩
  | succ r ih =>
    intro s m
    have h429 : is429 (oracle s) = true := by rw [h s]; rfl
    simp only [callLLMR, attemptLoop, h429, if_true]
    refine ⟨(ih (s + 1) (m + 1)).1, ?_⟩
    simp only [List.length_cons]
    rw [(ih (s + 1) (m + 1)).2]

/-- **C4.** Fatal versus recoverable failures: a missing (or empty) API
credential makes `main` abort with the `ValueError` message before any
completion request is attempted (the outcome does not depend on the
completion service or the corpus at all), while a schedule that rate-limits
every attempt exhausts the default budget of 3 attempts per call — each call
returning the fallback string — and the run still completes normally with
every slot of every batch filled by a deterministic placeholder. -/
theorem main_fatal_vs_recoverable (key : Option String) (oracle : Nat → HttpResult)
    (jit : Nat → ℚ) (files : List CorpusEntry)
    (oracle' : Nat → HttpResult) (jit' : Nat → ℚ) (files' : List CorpusEntry) :
    (pyTruthy key = false →
      mainModel key oracle jit files =
        .error "OPENROUTER_API_KEY not set in environment variables." ∧
      mainModel key oracle jit files = mainModel key oracle' jit' files') ∧
    (pyTruthy key = true → (∀ k, oracle k = .response 429 "") →
      (∀ f ∈ files, f.code ≠ "") →
      (∀ prompt step mi, (callLLMR oracle jit prompt 3 step mi).1 = unavailableMsg ∧
        ((callLLMR oracle jit prompt 3 step mi).2).length = 3) ∧
      mainModel key oracle jit files = .ok (processFolder oracle jit files) ∧
      (processFolder oracle jit files).explanations.length = files.length ∧
      ∀ e ∈ (processFolder oracle jit files).explanations,
        (∃ m, e = "Code file " ++ toString (m + 1)) ∧ e ≠ "") := by
  constructor
  · intro hkey
    constructor
    · simp [mainModel, hkey]
    · simp [mainModel, hkey]
  · intro hkey h429 hcode
    have hclean : cleanFailures oracle := by
      intro k
      rw [h429 k]
      exact Or.inl rfl
    refine ⟨fun prompt step mi => callLLMR_all429 oracle jit prompt h429 3 step mi, ?_, ?_, ?_⟩
    · simp [mainModel, hkey]
    · exact processFolder_length oracle jit files
    · exact processFolder_clean_slots oracle jit files hclean hcode

/-- Witness for C4: missing key aborts; with a key, the all-429 schedule over
the three-file corpus completes with three placeholder slots, each call
having made exactly 3 attempts. -/
theorem main_fatal_vs_recoverable_witness :
    mainModel none all429Oracle zeroJit sampleFiles =
      .error "OPENROUTER_API_KEY not set in environment variables." ∧
    mainModel (some "sk") all429Oracle zeroJit sampleFiles =
      .ok (processFolder all429Oracle zeroJit sampleFiles) ∧
    ((callLLMR all429Oracle zeroJit "p" 3 0 0).2).length = 3 ∧
    (processFolder all429Oracle zeroJit sampleFiles).explanations.length = 3 := by
  have ha := (main_fatal_vs_recoverable none all429Oracle zeroJit sampleFiles
    all429Oracle zeroJit sampleFiles).1 (by decide)
  have hb := (main_fatal_vs_recoverable (some "sk") all429Oracle zeroJit sampleFiles
    all429Oracle zeroJit sampleFiles).2 (by decide) (fun _ => rfl) (by decide)
  exact ⟨ha.1, hb.2.1, (hb.1 "p" 0 0).2, by rw [hb.2.2.1]; rfl⟩

end Decodr
